import Mathlib

/-!
# Verification of the odds extraction and target-matching core

Shallow embedding of the two scripts of the repository
(`odds_script.py`, the aggregate best-price extractor, and
`odds_filter_script.py`, the per-bookmaker extractor), together with
proofs of the specified properties.

Conventions of the embedding:
* decimal prices are modelled as rationals (`ℚ`);
* a price value that fails Python's `float(price)` conversion
  (`None`, `"N/A"`, ...) is modelled as `none`;
* JSON dictionaries become structures; `dict.get(k)` for the optional
  `link` fields becomes an `Option String` field;
* Python's `str.lower()` is modelled by `strLower`, which lowercases
  ASCII and Latin-1 uppercase letters and so agrees with `str.lower()`
  on every character whose lowercase form can appear in the
  draw-synonym sets;
* the HTTP layer is modelled by a `RequestResult` describing what the
  single `requests.get` call of `fetch_odds` produced, and exceptions by
  `Except`.
-/

namespace OddsScripts

/-- An outcome entry of an `h2h` market: `{"name": ..., "price": ..., "link": ...}`.
`price = none` models a value rejected by `float(...)`. -/
structure Outcome where
  name : String
  price : Option ℚ
  link : Option String
deriving Repr, DecidableEq

/-- A market entry of a bookmaker: `{"key": ..., "outcomes": [...], "link": ...}`. -/
structure Market where
  key : String
  outcomes : List Outcome
  link : Option String
deriving Repr, DecidableEq

/-- A bookmaker entry of an event. `title = none` models a missing
`"title"` field (the code falls back to the key). -/
structure Bookmaker where
  key : String
  title : Option String
  markets : List Market
  link : Option String
deriving Repr, DecidableEq

/-- An event object returned by the odds endpoint. -/
structure Event where
  id : String
  sport_key : String
  commence_time : String
  home_team : String
  away_team : String
  bookmakers : List Bookmaker
  link : Option String
deriving Repr, DecidableEq

/-- The three outcome classifications. -/
inductive OutKey where
  | home
  | draw
  | away
deriving Repr, DecidableEq

/-- Draw synonym set of `extract_bookmaker_odds` (odds_filter_script.py,
line 153): `{"draw", "tie", "egalité"}`. -/
def drawSynonymsPerBookmaker : List String := ["draw", "tie", "egalité"]

/-- Draw synonym set of `extract_three_way_odds` (odds_script.py,
line 80): `{"draw", "tie", "espn", "egalité"}`. -/
def drawSynonymsAggregate : List String := ["draw", "tie", "espn", "egalité"]

/-- Character-wise model of Python's `str.lower()`: ASCII uppercase and
Latin-1 uppercase (U+00C0–U+00DE except the multiplication sign U+00D7)
map to their lowercase forms 32 code points higher; everything else is
unchanged. This agrees with Python's `str.lower()` on all of ASCII and
Latin-1 — in particular on every character whose lowercase form can occur
in the draw-synonym sets (the sets' only non-ASCII letter is `é`, whose
sole uppercase preimage under `str.lower()` is `É`, U+00C9). -/
def pyLowerChar (c : Char) : Char :=
  if 'A' ≤ c ∧ c ≤ 'Z' then Char.ofNat (c.toNat + 32)
  else if 0xC0 ≤ c.toNat ∧ c.toNat ≤ 0xDE ∧ c.toNat ≠ 0xD7 then
    Char.ofNat (c.toNat + 32)
  else c

/-- Model of Python's `name.lower()`, lowercasing each character with
`pyLowerChar`. -/
def strLower (s : String) : String := String.mk (s.data.map pyLowerChar)

/-- Outcome-name classification shared by both scripts: lowercased name in
the draw-synonym set, else verbatim equality with the home team, else with
the away team, else unclassified. -/
def classifyOutcome (syns : List String) (home_team away_team name : String) :
    Option OutKey :=
  if strLower name ∈ syns then some OutKey.draw
  else if name = home_team then some OutKey.home
  else if name = away_team then some OutKey.away
  else none

/-! ## Aggregate extractor (`odds_script.py`, `extract_three_way_odds`) -/

/-- The `best_odds` dictionary being built by `extract_three_way_odds`. -/
structure BestOdds where
  home : Option ℚ
  draw : Option ℚ
  away : Option ℚ
deriving Repr, DecidableEq

/-- Dictionary lookup `best_odds.get(k)`. -/
def BestOdds.get (b : BestOdds) : OutKey → Option ℚ
  | OutKey.home => b.home
  | OutKey.draw => b.draw
  | OutKey.away => b.away

/-- Dictionary assignment `best_odds[k] = v`. -/
def BestOdds.set (b : BestOdds) : OutKey → ℚ → BestOdds
  | OutKey.home, v => { b with home := some v }
  | OutKey.draw, v => { b with draw := some v }
  | OutKey.away, v => { b with away := some v }

/-- The update `if outcome_key not in best_odds or price_val > best_odds[outcome_key]:
best_odds[outcome_key] = price_val` (odds_script.py, lines 94–95). -/
def updateBest (b : BestOdds) (k : OutKey) (v : ℚ) : BestOdds :=
  match b.get k with
  | none => b.set k v
  | some cur => if v > cur then b.set k v else b

/-- Body of the innermost loop of `extract_three_way_odds`: classify one
outcome, convert its price, keep the maximum. -/
def stepOutcome (home_team away_team : String) (b : BestOdds) (o : Outcome) :
    BestOdds :=
  match classifyOutcome drawSynonymsAggregate home_team away_team o.name with
  | none => b
  | some k =>
    match o.price with
    | none => b
    | some p => updateBest b k p

/-- Market loop of `extract_three_way_odds`: non-`h2h` markets are skipped. -/
def marketStep (home_team away_team : String) (b : BestOdds) (m : Market) :
    BestOdds :=
  if m.key = "h2h" then m.outcomes.foldl (stepOutcome home_team away_team) b
  else b

/-- Bookmaker loop of `extract_three_way_odds`. -/
def bookmakerStep (home_team away_team : String) (b : BestOdds)
    (bk : Bookmaker) : BestOdds :=
  bk.markets.foldl (marketStep home_team away_team) b

/-- The `best_odds` dictionary after all three nested loops. -/
def bestOddsState (e : Event) : BestOdds :=
  e.bookmakers.foldl (bookmakerStep e.home_team e.away_team)
    ⟨none, none, none⟩

/-- The three prices of a complete extraction. -/
structure ThreeOdds where
  home : ℚ
  draw : ℚ
  away : ℚ
deriving Repr, DecidableEq

/-- Projection of a `ThreeOdds` record at a classification. -/
def ThreeOdds.get (t : ThreeOdds) : OutKey → ℚ
  | OutKey.home => t.home
  | OutKey.draw => t.draw
  | OutKey.away => t.away

/-- Model of `extract_three_way_odds` (odds_script.py, lines 56–96): best
home/draw/away prices across all bookmakers, `none` unless all three
classifications received a numeric price. -/
def extract_three_way_odds (e : Event) : Option ThreeOdds :=
  match (bestOddsState e).home, (bestOddsState e).draw,
      (bestOddsState e).away with
  | some h, some d, some a => some ⟨h, d, a⟩
  | _, _, _ => none

/-- The `h2h` outcomes of an event in traversal order (bookmaker order,
then market order, skipping non-`h2h` markets, then outcome order). -/
def h2hOutcomes (e : Event) : List Outcome :=
  e.bookmakers.flatMap fun bk =>
    bk.markets.flatMap fun m => if m.key = "h2h" then m.outcomes else []

/-- The numeric price an outcome contributes to classification `k`
(aggregate mode): its converted price when it classifies as `k`. -/
def classifiedPrice (home_team away_team : String) (k : OutKey)
    (o : Outcome) : Option ℚ :=
  match classifyOutcome drawSynonymsAggregate home_team away_team o.name with
  | some k2 => if k2 = k then o.price else none
  | none => none

/-- All numerically valid prices of an event carrying classification `k`
across every bookmaker's `h2h` markets. -/
def classifiedPrices (e : Event) (k : OutKey) : List ℚ :=
  (h2hOutcomes e).filterMap (classifiedPrice e.home_team e.away_team k)

/-- One step of a running maximum over an optional accumulator. -/
def omax : Option ℚ → ℚ → Option ℚ
  | none, p => some p
  | some m, p => some (max m p)

/-! ## Per-bookmaker extractor (`odds_filter_script.py`,
`extract_bookmaker_odds`) -/

/-- Python's `a or b` restricted to the optional link strings: `a` when it
is a non-empty string, otherwise `b`. -/
def pyOr (a b : Option String) : Option String :=
  match a with
  | some s => if s = "" then b else some s
  | none => b

/-- Model of `_deep_link` (odds_filter_script.py, lines 107–127):
`outcome.get("link") or market.get("link") or bookmaker.get("link") or
event.get("link")`. -/
def _deep_link (e : Event) (bk : Bookmaker) (m : Market) (o : Outcome) :
    Option String :=
  pyOr o.link (pyOr m.link (pyOr bk.link e.link))

/-- Holds exactly when an optional link value is Python-truthy, i.e. a
non-empty string. -/
def linkTruthy : Option String → Bool
  | none => false
  | some s => !(s == "")

/-- The paired `odds_map` / `link_map` dictionaries of
`extract_bookmaker_odds` (always assigned together, so modelled as one
map to a price/link pair). -/
structure OddsLinkMaps where
  home : Option (ℚ × Option String)
  draw : Option (ℚ × Option String)
  away : Option (ℚ × Option String)
deriving Repr, DecidableEq

/-- Lookup in the joint `odds_map`/`link_map`. -/
def OddsLinkMaps.get (s : OddsLinkMaps) : OutKey → Option (ℚ × Option String)
  | OutKey.home => s.home
  | OutKey.draw => s.draw
  | OutKey.away => s.away

/-- Assignment `odds_map[key] = price_val; link_map[key] = ...`. -/
def OddsLinkMaps.set (s : OddsLinkMaps) :
    OutKey → ℚ × Option String → OddsLinkMaps
  | OutKey.home, v => { s with home := some v }
  | OutKey.draw, v => { s with draw := some v }
  | OutKey.away, v => { s with away := some v }

/-- Body of the outcome loop of `extract_bookmaker_odds` (lines 150–166):
classify, convert the price, then overwrite the entry for that key. -/
def stepBookOutcome (e : Event) (bk : Bookmaker) (m : Market)
    (s : OddsLinkMaps) (o : Outcome) : OddsLinkMaps :=
  match classifyOutcome drawSynonymsPerBookmaker e.home_team e.away_team
      o.name with
  | none => s
  | some k =>
    match o.price with
    | none => s
    | some p => s.set k (p, _deep_link e bk m o)

/-- One row of the result list of `extract_bookmaker_odds`
(lines 168–184). -/
structure BookRecord where
  event_id : String
  sport_key : String
  commence_time : String
  home_team : String
  away_team : String
  bookmaker : String
  bookmaker_title : String
  home_odds : ℚ
  draw_odds : ℚ
  away_odds : ℚ
  home_link : Option String
  draw_link : Option String
  away_link : Option String
deriving Repr, DecidableEq

/-- The derived field `combined_product = home_odds * draw_odds * away_odds`
(odds_filter_script.py, lines 222–224). -/
def BookRecord.combined_product (r : BookRecord) : ℚ :=
  r.home_odds * r.draw_odds * r.away_odds

/-- The joint `odds_map`/`link_map` state after the outcome loop of one
market. -/
def marketMaps (e : Event) (bk : Bookmaker) (m : Market) : OddsLinkMaps :=
  m.outcomes.foldl (stepBookOutcome e bk m) ⟨none, none, none⟩

/-- The record `extract_bookmaker_odds` appends for one complete market. -/
def mkBookRecord (e : Event) (bk : Bookmaker) (hv dv av : ℚ × Option String) :
    BookRecord :=
  { event_id := e.id
    sport_key := e.sport_key
    commence_time := e.commence_time
    home_team := e.home_team
    away_team := e.away_team
    bookmaker := bk.key
    bookmaker_title := bk.title.getD bk.key
    home_odds := hv.1
    draw_odds := dv.1
    away_odds := av.1
    home_link := hv.2
    draw_link := dv.2
    away_link := av.2 }

/-- Processing of one market of one bookmaker inside
`extract_bookmaker_odds`: skip non-`h2h` markets, build the maps over the
outcomes, and emit a record exactly when all three keys are present
(`len(odds_map) == 3`). -/
def processMarket (e : Event) (bk : Bookmaker) (m : Market) :
    Option BookRecord :=
  if m.key = "h2h" then
    match (marketMaps e bk m).home, (marketMaps e bk m).draw,
        (marketMaps e bk m).away with
    | some hv, some dv, some av => some (mkBookRecord e bk hv dv av)
    | _, _, _ => none
  else none

/-- Model of `extract_bookmaker_odds` (odds_filter_script.py, lines 129–185): one
record per bookmaker market that offers all three outcomes. -/
def extract_bookmaker_odds (e : Event) : List BookRecord :=
  e.bookmakers.flatMap fun bk => bk.markets.filterMap (processMarket e bk)

/-- The price/link pair an outcome contributes to classification `k` in
per-bookmaker mode. -/
def classifiedPriceLink (e : Event) (bk : Bookmaker) (m : Market)
    (k : OutKey) (o : Outcome) : Option (ℚ × Option String) :=
  match classifyOutcome drawSynonymsPerBookmaker e.home_team e.away_team
      o.name with
  | some k2 =>
    if k2 = k then o.price.map fun p => (p, _deep_link e bk m o) else none
  | none => none

/-- All valid classified price/link pairs of one market for key `k`, in
market order. -/
def marketClassified (e : Event) (bk : Bookmaker) (m : Market) (k : OutKey) :
    List (ℚ × Option String) :=
  m.outcomes.filterMap (classifiedPriceLink e bk m k)

/-- Number of `h2h` market entries of an event across all bookmakers. -/
def countH2hMarkets (e : Event) : Nat :=
  (e.bookmakers.flatMap fun bk =>
    bk.markets.filter fun m => m.key == "h2h").length

/-! ## Fetching (`fetch_odds` of both scripts) -/

/-- What the single `requests.get` call inside `fetch_odds` produced:
either an HTTP response with a status code and (for success codes) a
parsed JSON body, or a raised transport error (connection failure,
timeout, ...). -/
inductive RequestResult where
  | response (status_code : Nat) (body : List Event)
  | failure (msg : String)
deriving Repr, DecidableEq

/-- Model of `fetch_odds` (odds_filter_script.py lines 100–105, odds_script.py
lines 48–53): a 404 status yields `[]`; `raise_for_status()` raises on
any other 4xx/5xx status; a transport failure propagates; otherwise the
JSON body is returned. Exceptions are modelled by `Except.error`. -/
def fetch_odds : RequestResult → Except String (List Event)
  | RequestResult.response status_code body =>
    if status_code = 404 then Except.ok []
    else if 400 ≤ status_code ∧ status_code < 600 then
      Except.error ("HTTP error " ++ toString status_code)
    else Except.ok body
  | RequestResult.failure msg => Except.error msg

/-! ## Target filter, ranking and orchestration -/

/-- The filter condition of both scripts: every one of the three prices
lies within `tol` of `target`, boundary inclusive. -/
def passesTarget (target tol : ℚ) (home draw away : ℚ) : Prop :=
  |home - target| ≤ tol ∧ |draw - target| ≤ tol ∧ |away - target| ≤ tol

instance (target tol home draw away : ℚ) :
    Decidable (passesTarget target tol home draw away) := by
  unfold passesTarget
  infer_instance

/-- The per-record filter of `find_events_with_target_odds`
(odds_filter_script.py, lines 215–225): keep a record exactly when all
three odds pass, annotating it with its `combined_product`. -/
def filterTargetRecords (target tol : ℚ) (rs : List BookRecord) :
    List (BookRecord × ℚ) :=
  rs.filterMap fun r =>
    if passesTarget target tol r.home_odds r.draw_odds r.away_odds then
      some (r, r.combined_product)
    else none

/-- Stable insertion of one element into a list sorted by non-increasing
key: the element goes in front of the first entry whose key is `≤` its
own, so it lands after every strictly larger key and before equal ones
coming from later input positions. -/
def insertDesc (key : α → ℚ) (a : α) : List α → List α
  | [] => [a]
  | b :: l => if key b ≤ key a then a :: b :: l else b :: insertDesc key a l

/-- Stable sort by non-increasing key, the documented behaviour of
Python's stable `list.sort(key=..., reverse=True)` used at
odds_script.py line 144 (and modelling the final descending
`sort_values` of odds_filter_script.py line 228). -/
def sortDesc (key : α → ℚ) : List α → List α
  | [] => []
  | a :: l => insertDesc key a (sortDesc key l)

/-- The records accumulated by the orchestration loop of
`find_events_with_target_odds` (odds_filter_script.py, lines 208–225):
per sport key, a failed fetch is reported and skipped, a successful one
contributes the filtered per-bookmaker records of its events. -/
def collectFilteredRecords (env : String → RequestResult) (target tol : ℚ)
    (sport_keys : List String) : List (BookRecord × ℚ) :=
  sport_keys.flatMap fun sk =>
    match fetch_odds (env sk) with
    | Except.error _ => []
    | Except.ok events =>
      events.flatMap fun ev =>
        filterTargetRecords target tol (extract_bookmaker_odds ev)

/-- The documented contract of the pandas
`sort_values("combined_product", ascending=False)` call
(odds_filter_script.py, line 228) with its default `kind='quicksort'`:
the output is a permutation of the rows that is non-increasing in the
sort key. The default quicksort is documented as not stable, so the
relative order of tied rows is implementation-defined and this contract
is all the program guarantees. -/
def sortValuesDesc {α : Type} (key : α → ℚ) (l out : List α) : Prop :=
  l.Perm out ∧ List.Pairwise (fun x y => key y ≤ key x) out

/-- Model of `find_events_with_target_odds` (odds_filter_script.py,
lines 187–229): collect the filtered records, then sort descending by
`combined_product` via `sort_values`. Because the pandas sort's tie
order is implementation-defined, the model is the relation holding of
exactly the outputs the program may produce. `env` gives the outcome of
the HTTP call for each sport key. -/
def find_events_with_target_odds (env : String → RequestResult)
    (target tol : ℚ) (sport_keys : List String)
    (out : List (BookRecord × ℚ)) : Prop :=
  sortValuesDesc (fun p => p.2)
    (collectFilteredRecords env target tol sport_keys) out

/-- One result entry of `find_high_odds_events` (odds_script.py,
lines 134–142). -/
structure EventRecord where
  event_id : String
  sport_key : String
  commence_time : String
  home_team : String
  away_team : String
  best_odds : ThreeOdds
  combined_product : ℚ
deriving Repr, DecidableEq

/-- Per-event body of the loop of `find_high_odds_events`
(odds_script.py, lines 127–142): extract, drop incomplete events, filter
against the target, annotate with the combined product. -/
def eventPassingRecord (target tol : ℚ) (ev : Event) : Option EventRecord :=
  match extract_three_way_odds ev with
  | none => none
  | some odds =>
    if passesTarget target tol odds.home odds.draw odds.away then
      some {
        event_id := ev.id
        sport_key := ev.sport_key
        commence_time := ev.commence_time
        home_team := ev.home_team
        away_team := ev.away_team
        best_odds := odds
        combined_product := odds.home * odds.draw * odds.away }
    else none

/-- The unsorted result list of `find_high_odds_events`
(odds_script.py, lines 118–142), with the default
`max_events_per_sport=None` (no truncation). -/
def passingEventRecords (env : String → RequestResult) (target tol : ℚ)
    (sport_keys : List String) : List EventRecord :=
  sport_keys.flatMap fun sk =>
    match fetch_odds (env sk) with
    | Except.error _ => []
    | Except.ok events => events.filterMap (eventPassingRecord target tol)

/-- Model of `find_high_odds_events` (odds_script.py, lines 99–145): collect the
passing records, then `results.sort(key=..., reverse=True)`. -/
def find_high_odds_events (env : String → RequestResult) (target tol : ℚ)
    (sport_keys : List String) : List EventRecord :=
  sortDesc (fun r => r.combined_product)
    (passingEventRecords env target tol sport_keys)

/-! ## Concrete sample data, used to instantiate the theorems below -/

/-- Sample home outcome, price 2. -/
def exOutcomeHome : Outcome := ⟨"HomeFC", some 2, none⟩

/-- Sample draw outcome, price 3. -/
def exOutcomeDraw : Outcome := ⟨"Draw", some 3, none⟩

/-- Sample away outcome, price 4. -/
def exOutcomeAway : Outcome := ⟨"AwayFC", some 4, none⟩

/-- Sample draw outcome whose price value fails numeric conversion. -/
def exOutcomeBadPrice : Outcome := ⟨"Draw", none, none⟩

/-- A complete `h2h` market. -/
def exMarket : Market := ⟨"h2h", [exOutcomeHome, exOutcomeDraw, exOutcomeAway], none⟩

/-- A bookmaker listing the same `h2h` market twice. -/
def exBookmakerTwice : Bookmaker := ⟨"bk", none, [exMarket, exMarket], none⟩

/-- An event whose single bookmaker lists two `h2h` markets. -/
def exEventTwice : Event :=
  ⟨"ev1", "soccer_epl", "t0", "HomeFC", "AwayFC", [exBookmakerTwice], none⟩

/-- A bookmaker with one complete `h2h` market. -/
def exBookmaker : Bookmaker := ⟨"bk", none, [exMarket], none⟩

/-- A simple complete event. -/
def exEventSimple : Event :=
  ⟨"ev0", "soccer_epl", "t0", "HomeFC", "AwayFC", [exBookmaker], none⟩

/-- A second home outcome with a higher price and a link, listed first. -/
def exOutcomeHomeHigh : Outcome := ⟨"HomeFC", some 5, some "L1"⟩

/-- An `h2h` market with two home-classified outcomes (5 first, 2 last). -/
def exMarketDup : Market :=
  ⟨"h2h", [exOutcomeHomeHigh, exOutcomeHome, exOutcomeDraw, exOutcomeAway], none⟩

/-- Bookmaker carrying the duplicate-home market. -/
def exBookmakerDup : Bookmaker := ⟨"bk", none, [exMarketDup], none⟩

/-- Event carrying the duplicate-home market. -/
def exEventDup : Event :=
  ⟨"ev2", "soccer_epl", "t0", "HomeFC", "AwayFC", [exBookmakerDup], none⟩

/-- The record per-bookmaker extraction produces from the duplicate-home
market: home odds 2 (the later outcome), not 5. -/
def exRecordDup : BookRecord :=
  mkBookRecord exEventDup exBookmakerDup (2, none) (3, none) (4, none)

/-- An outcome with no link field. -/
def exOutcomeNoLink : Outcome := ⟨"x", none, none⟩

/-- A market with no link field. -/
def exMarketNoLink : Market := ⟨"h2h", [], none⟩

/-- A bookmaker with no link field. -/
def exBookmakerNoLink : Bookmaker := ⟨"b", none, [], none⟩

/-- An event whose link field holds the empty string. -/
def exEventEmptyLink : Event := ⟨"e", "s", "t", "H", "A", [], some ""⟩

/-- A market whose link is "M". -/
def exMarketLinkM : Market := ⟨"h2h", [], some "M"⟩

/-- A bookmaker whose link is "B". -/
def exBookmakerLinkB : Bookmaker := ⟨"b", none, [], some "B"⟩

/-- An event whose link is "E". -/
def exEventLinkE : Event := ⟨"e", "s", "t", "H", "A", [], some "E"⟩

/-- The passing record of the specification's end-to-end example
(home 2.5, draw 3.4, away 3.0 with target 3.0 and tolerance 0.6). -/
def exRecordPass : BookRecord :=
  { event_id := "e1", sport_key := "s", commence_time := "t"
    home_team := "H", away_team := "A"
    bookmaker := "bk", bookmaker_title := "BK"
    home_odds := 5 / 2, draw_odds := 17 / 5, away_odds := 3
    home_link := none, draw_link := none, away_link := none }

/-- The failing record of the specification's end-to-end example
(home 2.0 deviates from target 3.0 by more than 0.6). -/
def exRecordFail : BookRecord :=
  { event_id := "e2", sport_key := "s", commence_time := "t"
    home_team := "H", away_team := "A"
    bookmaker := "bk", bookmaker_title := "BK"
    home_odds := 2, draw_odds := 3, away_odds := 3
    home_link := none, draw_link := none, away_link := none }

/-- An environment in which every HTTP request raises a transport
failure. -/
def envAllFail : String → RequestResult :=
  fun _ => RequestResult.failure "network down"

/-- A filtered record with all three odds 3 (combined product 27). -/
def exRecordTieA : BookRecord :=
  { event_id := "tieA", sport_key := "s", commence_time := "t"
    home_team := "H", away_team := "A"
    bookmaker := "bk1", bookmaker_title := "BK1"
    home_odds := 3, draw_odds := 3, away_odds := 3
    home_link := none, draw_link := none, away_link := none }

/-- A second filtered record with all three odds 3, from another
bookmaker. -/
def exRecordTieB : BookRecord :=
  { event_id := "tieB", sport_key := "s", commence_time := "t"
    home_team := "H", away_team := "A"
    bookmaker := "bk2", bookmaker_title := "BK2"
    home_odds := 3, draw_odds := 3, away_odds := 3
    home_link := none, draw_link := none, away_link := none }

/-! ## Helper lemmas -/

theorem foldl_flatMap {α β σ : Type} (g : α → List β) (f : σ → β → σ) :
    ∀ (l : List α) (s : σ),
      (l.flatMap g).foldl f s = l.foldl (fun s x => (g x).foldl f s) s
  | [], _ => rfl
  | x :: l, s => by
    rw [List.flatMap_cons, List.foldl_append, List.foldl_cons,
      foldl_flatMap g f l]

theorem pyOr_eq_ite (a b : Option String) :
    pyOr a b = if linkTruthy a then a else b := by
  match a with
  | none => rfl
  | some s =>
    by_cases h : s = "" <;> simp [pyOr, linkTruthy, h]

/-! ## C5: deep-link resolution -/

/-- C5 (counterexample): with the outcome, market and bookmaker links
absent and the event link equal to the empty string — so all four links
absent or empty — the resolved deep link is `some ""`, not `none`: the
`or` chain returns its last operand even when that operand is falsy. -/
theorem c5_deep_link_counterexample :
    (exOutcomeNoLink.link = none ∧ exMarketNoLink.link = none ∧
      exBookmakerNoLink.link = none ∧ exEventEmptyLink.link = some "") ∧
    _deep_link exEventEmptyLink exBookmakerNoLink exMarketNoLink
      exOutcomeNoLink ≠ none := by
  refine ⟨⟨rfl, rfl, rfl, rfl⟩, ?_⟩
  decide

/-- C5 (amended): the resolved deep link is the first non-empty link in
the order outcome, market, bookmaker, event; when the first three are all
absent or empty the result is the event-level link value — in particular
`none` when all four links are absent, but the event link's value (e.g.
the empty string) otherwise. -/
theorem c5_deep_link_order (e : Event) (bk : Bookmaker) (m : Market)
    (o : Outcome) :
    (linkTruthy o.link = true → _deep_link e bk m o = o.link) ∧
    (linkTruthy o.link = false → linkTruthy m.link = true →
      _deep_link e bk m o = m.link) ∧
    (linkTruthy o.link = false → linkTruthy m.link = false →
      linkTruthy bk.link = true → _deep_link e bk m o = bk.link) ∧
    (linkTruthy o.link = false → linkTruthy m.link = false →
      linkTruthy bk.link = false → _deep_link e bk m o = e.link) := by
  refine ⟨fun h1 => ?_, fun h1 h2 => ?_, fun h1 h2 h3 => ?_,
    fun h1 h2 h3 => ?_⟩
  · simp [_deep_link, pyOr_eq_ite, h1]
  · simp [_deep_link, pyOr_eq_ite, h1, h2]
  · simp [_deep_link, pyOr_eq_ite, h1, h2, h3]
  · simp [_deep_link, pyOr_eq_ite, h1, h2, h3]

/-- C5 witness: with the outcome link absent, market link "M" and
bookmaker link "B", the resolved link is "M"; with the market link also
absent it is "B". -/
theorem c5_deep_link_order_witness :
    _deep_link exEventLinkE exBookmakerLinkB exMarketLinkM exOutcomeNoLink
      = some "M" ∧
    _deep_link exEventLinkE exBookmakerLinkB exMarketNoLink exOutcomeNoLink
      = some "B" := by
  constructor
  · exact (c5_deep_link_order exEventLinkE exBookmakerLinkB exMarketLinkM
      exOutcomeNoLink).2.1 (by decide) (by decide)
  · exact (c5_deep_link_order exEventLinkE exBookmakerLinkB exMarketNoLink
      exOutcomeNoLink).2.2.1 (by decide) (by decide) (by decide)

/-! ## C8: draw synonym classification -/

/-- C8: classification as draw is decided by case-insensitive membership
in the synonym set — `{"draw", "tie", "egalité"}` in per-bookmaker mode,
additionally containing `"espn"` in aggregate mode; in particular the
names "Draw", "DRAW" and "tie" classify as draw in both modes, whatever
the team names, and so does the non-ASCII "EGALITÉ" (whose `lower()`
sends `É` to `é`, giving `"egalité"` of the set). -/
theorem c8_draw_synonyms (name home_team away_team : String) :
    (classifyOutcome drawSynonymsPerBookmaker home_team away_team name
        = some OutKey.draw ↔ strLower name ∈ drawSynonymsPerBookmaker) ∧
    (classifyOutcome drawSynonymsAggregate home_team away_team name
        = some OutKey.draw ↔ strLower name ∈ drawSynonymsAggregate) ∧
    drawSynonymsPerBookmaker = ["draw", "tie", "egalité"] ∧
    drawSynonymsAggregate = ["draw", "tie", "espn", "egalité"] ∧
    classifyOutcome drawSynonymsPerBookmaker home_team away_team "Draw"
      = some OutKey.draw ∧
    classifyOutcome drawSynonymsPerBookmaker home_team away_team "DRAW"
      = some OutKey.draw ∧
    classifyOutcome drawSynonymsPerBookmaker home_team away_team "tie"
      = some OutKey.draw ∧
    classifyOutcome drawSynonymsPerBookmaker home_team away_team "EGALITÉ"
      = some OutKey.draw ∧
    classifyOutcome drawSynonymsAggregate home_team away_team "Draw"
      = some OutKey.draw ∧
    classifyOutcome drawSynonymsAggregate home_team away_team "DRAW"
      = some OutKey.draw ∧
    classifyOutcome drawSynonymsAggregate home_team away_team "tie"
      = some OutKey.draw ∧
    classifyOutcome drawSynonymsAggregate home_team away_team "EGALITÉ"
      = some OutKey.draw := by
  have iffSyn : ∀ (syns : List String),
      classifyOutcome syns home_team away_team name = some OutKey.draw ↔
        strLower name ∈ syns := by
    intro syns
    by_cases h : strLower name ∈ syns
    · simp [classifyOutcome, h]
    · rw [classifyOutcome, if_neg h]
      constructor
      · intro hc
        split_ifs at hc <;> simp_all
      · intro hc
        exact absurd hc h
  have hDraw : strLower "Draw" ∈ drawSynonymsPerBookmaker := by decide
  have hDRAW : strLower "DRAW" ∈ drawSynonymsPerBookmaker := by decide
  have hTie : strLower "tie" ∈ drawSynonymsPerBookmaker := by decide
  have hEg : strLower "EGALITÉ" ∈ drawSynonymsPerBookmaker := by decide
  have hDrawA : strLower "Draw" ∈ drawSynonymsAggregate := by decide
  have hDRAWA : strLower "DRAW" ∈ drawSynonymsAggregate := by decide
  have hTieA : strLower "tie" ∈ drawSynonymsAggregate := by decide
  have hEgA : strLower "EGALITÉ" ∈ drawSynonymsAggregate := by decide
  refine ⟨iffSyn _, iffSyn _, rfl, rfl, ?_, ?_, ?_, ?_, ?_, ?_, ?_, ?_⟩ <;>
    simp [classifyOutcome, hDraw, hDRAW, hTie, hEg, hDrawA, hDRAWA, hTieA,
      hEgA]

/-! ## C1: the target filter -/

/-- C1: in both scripts, a record of the extraction output is included in
the filter's output iff all three of its odds lie within `tol` of
`target`, boundary inclusive, and every filtered record satisfies all
three inequalities — stated for the per-bookmaker filter of
odds_filter_script.py (lines 215–225) and for the aggregate filter of
odds_script.py (lines 127–142). -/
theorem c1_filter_iff (target tol : ℚ) (rs : List BookRecord)
    (r : BookRecord) (hr : r ∈ rs) (events : List Event) (ev : Event)
    (odds : ThreeOdds) (hev : ev ∈ events)
    (hodds : extract_three_way_odds ev = some odds) :
    ((r, r.combined_product) ∈ filterTargetRecords target tol rs ↔
      (|r.home_odds - target| ≤ tol ∧ |r.draw_odds - target| ≤ tol ∧
        |r.away_odds - target| ≤ tol)) ∧
    (∀ p ∈ filterTargetRecords target tol rs,
      |p.1.home_odds - target| ≤ tol ∧ |p.1.draw_odds - target| ≤ tol ∧
        |p.1.away_odds - target| ≤ tol) ∧
    ((eventPassingRecord target tol ev).isSome ↔
      (|odds.home - target| ≤ tol ∧ |odds.draw - target| ≤ tol ∧
        |odds.away - target| ≤ tol)) ∧
    (∀ rec, eventPassingRecord target tol ev = some rec →
      rec ∈ events.filterMap (eventPassingRecord target tol)) ∧
    (∀ rec ∈ events.filterMap (eventPassingRecord target tol),
      |rec.best_odds.home - target| ≤ tol ∧
        |rec.best_odds.draw - target| ≤ tol ∧
        |rec.best_odds.away - target| ≤ tol) := by
  refine ⟨⟨?_, ?_⟩, ?_, ?_, ?_, ?_⟩
  · intro hmem
    rw [filterTargetRecords] at hmem
    rcases List.mem_filterMap.mp hmem with ⟨a, _, hfa⟩
    split_ifs at hfa with hp
    have ha : a = r := congrArg Prod.fst (Option.some.inj hfa)
    subst ha
    exact hp
  · intro hp
    rw [filterTargetRecords]
    refine List.mem_filterMap.mpr ⟨r, hr, ?_⟩
    rw [if_pos (show passesTarget target tol r.home_odds r.draw_odds
      r.away_odds from hp)]
  · intro p hp
    rw [filterTargetRecords] at hp
    rcases List.mem_filterMap.mp hp with ⟨a, -, hfa⟩
    split_ifs at hfa with hpass
    obtain rfl : (a, a.combined_product) = p := Option.some.inj hfa
    exact hpass
  · have ha : eventPassingRecord target tol ev =
        if passesTarget target tol odds.home odds.draw odds.away then
          some { event_id := ev.id, sport_key := ev.sport_key,
                 commence_time := ev.commence_time,
                 home_team := ev.home_team, away_team := ev.away_team,
                 best_odds := odds,
                 combined_product := odds.home * odds.draw * odds.away }
        else none := by
      unfold eventPassingRecord
      rw [hodds]
    rw [ha]
    by_cases hp : passesTarget target tol odds.home odds.draw odds.away
    · rw [if_pos hp]
      exact iff_of_true (by simp) hp
    · rw [if_neg hp]
      exact iff_of_false (by simp) hp
  · intro rec hrec
    exact List.mem_filterMap.mpr ⟨ev, hev, hrec⟩
  · intro rec hrec
    rcases List.mem_filterMap.mp hrec with ⟨ev', -, hfe⟩
    cases hx : extract_three_way_odds ev' with
    | none =>
      have hnone : eventPassingRecord target tol ev' = none := by
        unfold eventPassingRecord
        rw [hx]
      rw [hnone] at hfe
      exact Option.noConfusion hfe
    | some odds' =>
      have ha' : eventPassingRecord target tol ev' =
          if passesTarget target tol odds'.home odds'.draw odds'.away then
            some { event_id := ev'.id, sport_key := ev'.sport_key,
                   commence_time := ev'.commence_time,
                   home_team := ev'.home_team, away_team := ev'.away_team,
                   best_odds := odds',
                   combined_product := odds'.home * odds'.draw * odds'.away }
          else none := by
        unfold eventPassingRecord
        rw [hx]
      rw [ha'] at hfe
      split_ifs at hfe with hp
      obtain rfl := (Option.some.inj hfe).symm
      exact hp

/-- C1 witness: the specification's end-to-end example: with target 3 and
tolerance 0.6, the record with odds (2.5, 3.4, 3.0) passes and is
included with combined product 25.5; the record with home odds 2.0 is
excluded; and the aggregate-side iff holds at a concrete extracted
event with odds (2, 3, 4). -/
theorem c1_filter_iff_witness :
    ((exRecordPass, exRecordPass.combined_product) ∈
      filterTargetRecords 3 (3 / 5) [exRecordPass, exRecordFail]) ∧
    exRecordPass.combined_product = 51 / 2 ∧
    (¬ |exRecordFail.home_odds - 3| ≤ 3 / 5) ∧
    ((eventPassingRecord 3 (3 / 5) exEventSimple).isSome ↔
      (|(2 : ℚ) - 3| ≤ 3 / 5 ∧ |(3 : ℚ) - 3| ≤ 3 / 5 ∧
        |(4 : ℚ) - 3| ≤ 3 / 5)) := by
  have h := c1_filter_iff 3 (3 / 5) [exRecordPass, exRecordFail]
    exRecordPass (by simp) [exEventSimple] exEventSimple ⟨2, 3, 4⟩
    (by simp) rfl
  refine ⟨?_, ?_, ?_, ?_⟩
  · refine h.1.mpr ⟨?_, ?_, ?_⟩ <;>
      · rw [abs_sub_le_iff]
        constructor <;> norm_num [exRecordPass]
  · norm_num [BookRecord.combined_product, exRecordPass]
  · rw [abs_sub_le_iff]
    norm_num [exRecordFail]
  · exact h.2.2.1

/-! ## C2: descending stable sort -/

theorem mem_insertDesc {α : Type} (key : α → ℚ) (a x : α) :
    ∀ (l : List α), x ∈ insertDesc key a l ↔ x = a ∨ x ∈ l
  | [] => by simp [insertDesc]
  | b :: l => by
    by_cases h : key b ≤ key a
    · simp [insertDesc, h]
    · simp [insertDesc, h, mem_insertDesc key a x l]
      tauto

theorem pairwise_insertDesc {α : Type} (key : α → ℚ) (a : α) :
    ∀ (l : List α), List.Pairwise (fun x y => key y ≤ key x) l →
      List.Pairwise (fun x y => key y ≤ key x) (insertDesc key a l)
  | [], _ => by simp [insertDesc]
  | b :: l, hp => by
    rcases List.pairwise_cons.mp hp with ⟨hb, hl⟩
    by_cases h : key b ≤ key a
    · rw [insertDesc, if_pos h]
      refine List.pairwise_cons.mpr ⟨?_, hp⟩
      intro y hy
      rcases List.mem_cons.mp hy with rfl | hy'
      · exact h
      · exact le_trans (hb y hy') h
    · rw [insertDesc, if_neg h]
      refine List.pairwise_cons.mpr ⟨?_, pairwise_insertDesc key a l hl⟩
      intro y hy
      rcases (mem_insertDesc key a y l).mp hy with rfl | hy'
      · exact (not_le.mp h).le
      · exact hb y hy'

theorem filter_insertDesc {α : Type} (key : α → ℚ) (a : α) (c : ℚ) :
    ∀ (l : List α),
      (insertDesc key a l).filter (fun x => decide (key x = c)) =
        if key a = c then a :: l.filter (fun x => decide (key x = c))
        else l.filter (fun x => decide (key x = c))
  | [] => by
    by_cases h : key a = c <;> simp [insertDesc, h]
  | b :: l => by
    have hr := filter_insertDesc key a c l
    by_cases hba : key b ≤ key a
    · rw [insertDesc, if_pos hba]
      by_cases hac : key a = c <;> by_cases hbc : key b = c <;>
        simp [List.filter_cons, hac, hbc]
    · rw [insertDesc, if_neg hba]
      have hab : key a < key b := not_le.mp hba
      by_cases hac : key a = c
      · have hbc : ¬ key b = c := by
          intro h
          rw [hac, h] at hab
          exact lt_irrefl c hab
        simp [List.filter_cons, hac, hbc, hr]
      · by_cases hbc : key b = c <;>
          simp [List.filter_cons, hac, hbc, hr]

theorem sortDesc_pairwise {α : Type} (key : α → ℚ) :
    ∀ (l : List α), List.Pairwise (fun x y => key y ≤ key x) (sortDesc key l)
  | [] => List.Pairwise.nil
  | a :: l => pairwise_insertDesc key a _ (sortDesc_pairwise key l)

theorem sortDesc_filter {α : Type} (key : α → ℚ) (c : ℚ) :
    ∀ (l : List α),
      (sortDesc key l).filter (fun x => decide (key x = c)) =
        l.filter (fun x => decide (key x = c))
  | [] => rfl
  | a :: l => by
    rw [sortDesc, filter_insertDesc, sortDesc_filter key c l, List.filter_cons]
    by_cases h : key a = c <;> simp [h]

theorem perm_insertDesc {α : Type} (key : α → ℚ) (a : α) :
    ∀ (l : List α), (insertDesc key a l).Perm (a :: l)
  | [] => List.Perm.refl _
  | b :: l => by
    by_cases h : key b ≤ key a
    · rw [insertDesc, if_pos h]
    · rw [insertDesc, if_neg h]
      exact ((perm_insertDesc key a l).cons b).trans (List.Perm.swap a b l)

theorem perm_sortDesc {α : Type} (key : α → ℚ) :
    ∀ (l : List α), (sortDesc key l).Perm l
  | [] => List.Perm.refl _
  | a :: l => by
    rw [sortDesc]
    exact (perm_insertDesc key a (sortDesc key l)).trans
      ((perm_sortDesc key l).cons a)

/-- C2 (counterexample): everything odds_filter_script.py guarantees for
its sort is the pandas `sort_values` contract — a non-increasing
permutation of the rows — and for the concrete tied input
`[(exRecordTieA, 27), (exRecordTieB, 27)]` that contract admits the
output holding the two equal-product records in the opposite of their
input order; so tie stability does not hold of every output the program
may produce. -/
theorem c2_counterexample :
    sortValuesDesc (fun p : BookRecord × ℚ => p.2)
      [(exRecordTieA, 27), (exRecordTieB, 27)]
      [(exRecordTieB, 27), (exRecordTieA, 27)] ∧
    [(exRecordTieB, 27), (exRecordTieA, 27)] ≠
      [(exRecordTieA, 27), (exRecordTieB, 27)] := by
  refine ⟨⟨List.Perm.swap (exRecordTieB, 27) (exRecordTieA, 27) [], ?_⟩, ?_⟩
  · decide
  · decide

/-- C2 (amended): the output of `find_high_odds_events` is sorted in
non-increasing order of `combined_product` and records with equal
`combined_product` keep their input order (Python's `list.sort` is
documented stable); every output `find_events_with_target_odds` may
produce is a permutation of the passing records sorted in non-increasing
order of `combined_product` — with no tie-order guarantee, as the pandas
default quicksort is not stable — and such an output exists. -/
theorem c2_sorted_stable (env : String → RequestResult) (target tol : ℚ)
    (sport_keys : List String) :
    (List.Pairwise (fun x y => y.combined_product ≤ x.combined_product)
        (find_high_odds_events env target tol sport_keys) ∧
      ∀ c : ℚ,
        (find_high_odds_events env target tol sport_keys).filter
            (fun r => decide (r.combined_product = c)) =
          (passingEventRecords env target tol sport_keys).filter
            (fun r => decide (r.combined_product = c))) ∧
    (∀ out, find_events_with_target_odds env target tol sport_keys out →
      (collectFilteredRecords env target tol sport_keys).Perm out ∧
        List.Pairwise (fun x y => y.2 ≤ x.2) out) ∧
    find_events_with_target_odds env target tol sport_keys
      (sortDesc (fun p => p.2)
        (collectFilteredRecords env target tol sport_keys)) := by
  refine ⟨⟨?_, fun c => ?_⟩, fun out h => ⟨h.1, h.2⟩, ⟨?_, ?_⟩⟩
  · exact sortDesc_pairwise (fun r : EventRecord => r.combined_product) _
  · exact sortDesc_filter (fun r : EventRecord => r.combined_product) c _
  · exact (perm_sortDesc (fun p : BookRecord × ℚ => p.2) _).symm
  · exact sortDesc_pairwise (fun p : BookRecord × ℚ => p.2) _

/-- C2 witness: the amended theorem applied to the always-failing
environment, instantiating the per-output hypothesis at the empty
output. -/
theorem c2_sorted_stable_witness :
    (collectFilteredRecords envAllFail 3 (3 / 5) ["a"]).Perm [] ∧
    List.Pairwise (fun x y : BookRecord × ℚ => y.2 ≤ x.2) [] :=
  (c2_sorted_stable envAllFail 3 (3 / 5) ["a"]).2.1 []
    ⟨List.Perm.nil, List.Pairwise.nil⟩

/-! ## C6: 404 handling and per-sport failure isolation -/

/-- C6: a fetch whose HTTP response is a 404 returns the empty event list
rather than an error; and when the fetch for one sport key fails, both
orchestration loops produce exactly the records they would produce
without that sport key — the remaining sport keys are still processed. -/
theorem c6_fetch_404_and_isolation (env : String → RequestResult)
    (target tol : ℚ) (l1 l2 : List String) (sk : String)
    (body : List Event) (msg : String)
    (hfail : fetch_odds (env sk) = Except.error msg) :
    fetch_odds (RequestResult.response 404 body) = Except.ok [] ∧
    passingEventRecords env target tol (l1 ++ sk :: l2) =
      passingEventRecords env target tol (l1 ++ l2) ∧
    collectFilteredRecords env target tol (l1 ++ sk :: l2) =
      collectFilteredRecords env target tol (l1 ++ l2) := by
  refine ⟨rfl, ?_, ?_⟩
  · rw [passingEventRecords, passingEventRecords, List.flatMap_append,
      List.flatMap_append, List.flatMap_cons, hfail]
    simp
  · rw [collectFilteredRecords, collectFilteredRecords,
      List.flatMap_append, List.flatMap_append, List.flatMap_cons, hfail]
    simp

/-- C6 witness: in an environment where every request fails with a
transport error, the sport key "b" is still processed after the failing
key "failing" (both loops produce the same records with and without it),
and a 404 yields the empty list. -/
theorem c6_fetch_404_and_isolation_witness :
    fetch_odds (RequestResult.response 404 []) = Except.ok [] ∧
    passingEventRecords envAllFail 3 (3 / 5) (["a"] ++ "failing" :: ["b"]) =
      passingEventRecords envAllFail 3 (3 / 5) (["a"] ++ ["b"]) ∧
    collectFilteredRecords envAllFail 3 (3 / 5)
        (["a"] ++ "failing" :: ["b"]) =
      collectFilteredRecords envAllFail 3 (3 / 5) (["a"] ++ ["b"]) :=
  c6_fetch_404_and_isolation envAllFail 3 (3 / 5) ["a"] ["b"] "failing" []
    "network down" rfl

/-! ## Fold invariants of the aggregate extractor -/

theorem bestOdds_get_set_same (b : BestOdds) (k : OutKey) (v : ℚ) :
    (b.set k v).get k = some v := by
  cases k <;> rfl

theorem bestOdds_get_set_ne (b : BestOdds) {k k' : OutKey} (v : ℚ)
    (h : k' ≠ k) : (b.set k v).get k' = b.get k' := by
  cases k <;> cases k' <;> simp_all [BestOdds.set, BestOdds.get]

theorem bestOdds_get_empty (k : OutKey) :
    (⟨none, none, none⟩ : BestOdds).get k = none := by
  cases k <;> rfl

theorem updateBest_get_same (b : BestOdds) (k : OutKey) (v : ℚ) :
    (updateBest b k v).get k = omax (b.get k) v := by
  cases hb : b.get k with
  | none => simp [updateBest, hb, omax, bestOdds_get_set_same]
  | some cur =>
    by_cases hv : v > cur
    · simp [updateBest, hb, hv, omax, bestOdds_get_set_same,
        max_eq_right hv.le]
    · simp [updateBest, hb, hv, omax, max_eq_left (not_lt.mp hv)]

theorem updateBest_get_ne (b : BestOdds) {k k' : OutKey} (v : ℚ)
    (h : k' ≠ k) : (updateBest b k v).get k' = b.get k' := by
  cases hb : b.get k with
  | none => simp [updateBest, hb, bestOdds_get_set_ne _ _ h]
  | some cur =>
    by_cases hv : v > cur <;>
      simp [updateBest, hb, hv, bestOdds_get_set_ne _ _ h]

theorem foldl_stepOutcome_get (home_team away_team : String) :
    ∀ (os : List Outcome) (b : BestOdds) (k : OutKey),
      (os.foldl (stepOutcome home_team away_team) b).get k =
        (os.filterMap (classifiedPrice home_team away_team k)).foldl omax
          (b.get k)
  | [], _, _ => rfl
  | o :: os, b, k => by
    rw [List.foldl_cons, List.filterMap_cons]
    cases hc : classifyOutcome drawSynonymsAggregate home_team away_team
        o.name with
    | none =>
      have hs : stepOutcome home_team away_team b o = b := by
        simp [stepOutcome, hc]
      have hcp : classifiedPrice home_team away_team k o = none := by
        simp [classifiedPrice, hc]
      rw [hs, hcp]
      exact foldl_stepOutcome_get home_team away_team os b k
    | some k0 =>
      cases hp : o.price with
      | none =>
        have hs : stepOutcome home_team away_team b o = b := by
          simp [stepOutcome, hc, hp]
        have hcp : classifiedPrice home_team away_team k o = none := by
          by_cases hk : k0 = k <;> simp [classifiedPrice, hc, hp, hk]
        rw [hs, hcp]
        exact foldl_stepOutcome_get home_team away_team os b k
      | some p =>
        have hs : stepOutcome home_team away_team b o = updateBest b k0 p := by
          simp [stepOutcome, hc, hp]
        by_cases hk : k0 = k
        · subst hk
          have hcp : classifiedPrice home_team away_team k0 o = some p := by
            simp [classifiedPrice, hc, hp]
          rw [hs, hcp, List.foldl_cons,
            foldl_stepOutcome_get home_team away_team os _ k0,
            updateBest_get_same]
        · have hcp : classifiedPrice home_team away_team k o = none := by
            simp [classifiedPrice, hc, hk]
          rw [hs, hcp, foldl_stepOutcome_get home_team away_team os _ k,
            updateBest_get_ne _ _ (Ne.symm hk)]

theorem marketStep_eq_foldl (home_team away_team : String) (b : BestOdds)
    (m : Market) :
    marketStep home_team away_team b m =
      (if m.key = "h2h" then m.outcomes else []).foldl
        (stepOutcome home_team away_team) b := by
  by_cases h : m.key = "h2h" <;> simp [marketStep, h]

theorem bestOddsState_eq_foldl (e : Event) :
    bestOddsState e =
      (h2hOutcomes e).foldl (stepOutcome e.home_team e.away_team)
        ⟨none, none, none⟩ := by
  rw [bestOddsState, h2hOutcomes, foldl_flatMap]
  refine List.foldl_ext _ _ _ ?_
  intro b bk _
  rw [bookmakerStep, foldl_flatMap]
  refine List.foldl_ext _ _ _ ?_
  intro b' m _
  exact marketStep_eq_foldl _ _ _ _

theorem bestOddsState_get (e : Event) (k : OutKey) :
    (bestOddsState e).get k = (classifiedPrices e k).foldl omax none := by
  rw [bestOddsState_eq_foldl,
    foldl_stepOutcome_get e.home_team e.away_team (h2hOutcomes e) _ k,
    bestOdds_get_empty, classifiedPrices]

theorem foldl_omax_eq_none (ps : List ℚ) :
    ∀ (i : Option ℚ), ps.foldl omax i = none ↔ i = none ∧ ps = [] := by
  induction ps with
  | nil => intro i; simp
  | cons p ps ih =>
    intro i
    rw [List.foldl_cons, ih]
    cases i <;> simp [omax]

theorem foldl_omax_init_le : ∀ (ps : List ℚ) (w v : ℚ),
    ps.foldl omax (some w) = some v → w ≤ v
  | [], _, _, h => le_of_eq (Option.some.inj h)
  | p :: ps, w, v, h => by
    rw [List.foldl_cons] at h
    exact le_trans (le_max_left w p) (foldl_omax_init_le ps (max w p) v h)

theorem foldl_omax_mem : ∀ (ps : List ℚ) (i : Option ℚ) (v : ℚ),
    ps.foldl omax i = some v → i = some v ∨ v ∈ ps
  | [], _, _, h => Or.inl h
  | p :: ps, i, v, h => by
    rw [List.foldl_cons] at h
    rcases foldl_omax_mem ps (omax i p) v h with h' | h'
    · cases i with
      | none =>
        have hv : p = v := Option.some.inj h'
        exact Or.inr (by rw [← hv]; exact List.mem_cons_self p ps)
      | some m =>
        have hv := Option.some.inj h'
        rcases max_choice m p with hm | hm
        · exact Or.inl (by rw [← hv, hm])
        · exact Or.inr (by rw [← hv, hm]; exact List.mem_cons_self p ps)
    · exact Or.inr (List.mem_cons_of_mem p h')

theorem foldl_omax_ub : ∀ (ps : List ℚ) (i : Option ℚ) (v : ℚ),
    ps.foldl omax i = some v → ∀ p ∈ ps, p ≤ v
  | [], _, _, _ => by simp
  | q :: ps, i, v, h => by
    rw [List.foldl_cons] at h
    intro p hp
    rcases List.mem_cons.mp hp with rfl | hp'
    · cases i with
      | none => exact foldl_omax_init_le ps p v h
      | some m =>
        exact le_trans (le_max_right m p) (foldl_omax_init_le ps (max m p) v h)
    · exact foldl_omax_ub ps (omax i q) v h p hp'

/-! ## C3: aggregate mode takes the maximum price per classification -/

/-- C3: in aggregate mode, when an event yields a record, the extracted
price for each classification is the maximum over all numerically valid
prices carrying that classification across every bookmaker's `h2h`
markets: it is one of those prices and no such price exceeds it. -/
theorem c3_aggregate_best_price (e : Event) (r : ThreeOdds) (k : OutKey)
    (h : extract_three_way_odds e = some r) :
    r.get k ∈ classifiedPrices e k ∧
      ∀ p ∈ classifiedPrices e k, p ≤ r.get k := by
  have hget : (bestOddsState e).get k = some (r.get k) := by
    unfold extract_three_way_odds at h
    cases hh : (bestOddsState e).home <;> rw [hh] at h <;>
      cases hd : (bestOddsState e).draw <;> rw [hd] at h <;>
        cases ha : (bestOddsState e).away <;> rw [ha] at h <;>
          try exact Option.noConfusion h
    obtain rfl := (Option.some.inj h).symm
    cases k
    · exact hh
    · exact hd
    · exact ha
  rw [bestOddsState_get] at hget
  constructor
  · rcases foldl_omax_mem _ _ _ hget with h' | h'
    · exact absurd h' (by simp)
    · exact h'
  · exact foldl_omax_ub _ _ _ hget

/-- C3 witness: on the event with duplicate home outcomes priced 5 and 2,
the aggregate extraction yields home odds 5, which is a classified home
price and an upper bound of all classified home prices. -/
theorem c3_aggregate_best_price_witness :
    (ThreeOdds.mk 5 3 4).get OutKey.home ∈
        classifiedPrices exEventDup OutKey.home ∧
      ∀ p ∈ classifiedPrices exEventDup OutKey.home,
        p ≤ (ThreeOdds.mk 5 3 4).get OutKey.home := by
  refine c3_aggregate_best_price exEventDup ⟨5, 3, 4⟩ OutKey.home ?_
  rfl

/-! ## Fold invariants of the per-bookmaker extractor -/

theorem oddsLinkMaps_get_set_same (s : OddsLinkMaps) (k : OutKey)
    (v : ℚ × Option String) : (s.set k v).get k = some v := by
  cases k <;> rfl

theorem oddsLinkMaps_get_set_ne (s : OddsLinkMaps) {k k' : OutKey}
    (v : ℚ × Option String) (h : k' ≠ k) :
    (s.set k v).get k' = s.get k' := by
  cases k <;> cases k' <;> simp_all [OddsLinkMaps.set, OddsLinkMaps.get]

theorem oddsLinkMaps_get_empty (k : OutKey) :
    (⟨none, none, none⟩ : OddsLinkMaps).get k = none := by
  cases k <;> rfl

theorem foldl_stepBookOutcome_get (e : Event) (bk : Bookmaker) (m : Market) :
    ∀ (os : List Outcome) (s : OddsLinkMaps) (k : OutKey),
      (os.foldl (stepBookOutcome e bk m) s).get k =
        (os.filterMap (classifiedPriceLink e bk m k)).foldl
          (fun _ x => some x) (s.get k)
  | [], _, _ => rfl
  | o :: os, s, k => by
    rw [List.foldl_cons, List.filterMap_cons]
    cases hc : classifyOutcome drawSynonymsPerBookmaker e.home_team
        e.away_team o.name with
    | none =>
      have hs : stepBookOutcome e bk m s o = s := by
        simp [stepBookOutcome, hc]
      have hcp : classifiedPriceLink e bk m k o = none := by
        simp [classifiedPriceLink, hc]
      rw [hs, hcp]
      exact foldl_stepBookOutcome_get e bk m os s k
    | some k0 =>
      cases hp : o.price with
      | none =>
        have hs : stepBookOutcome e bk m s o = s := by
          simp [stepBookOutcome, hc, hp]
        have hcp : classifiedPriceLink e bk m k o = none := by
          by_cases hk : k0 = k <;> simp [classifiedPriceLink, hc, hp, hk]
        rw [hs, hcp]
        exact foldl_stepBookOutcome_get e bk m os s k
      | some p =>
        have hs : stepBookOutcome e bk m s o =
            s.set k0 (p, _deep_link e bk m o) := by
          simp [stepBookOutcome, hc, hp]
        by_cases hk : k0 = k
        · subst hk
          have hcp : classifiedPriceLink e bk m k0 o =
              some (p, _deep_link e bk m o) := by
            simp [classifiedPriceLink, hc, hp]
          rw [hs, hcp, List.foldl_cons,
            foldl_stepBookOutcome_get e bk m os _ k0,
            oddsLinkMaps_get_set_same]
        · have hcp : classifiedPriceLink e bk m k o = none := by
            simp [classifiedPriceLink, hc, hk]
          rw [hs, hcp, foldl_stepBookOutcome_get e bk m os _ k,
            oddsLinkMaps_get_set_ne _ _ (Ne.symm hk)]

theorem foldl_keepLast {α : Type} : ∀ (xs : List α) (i : Option α),
    xs.foldl (fun _ x => some x) i = xs.getLast?.or i
  | [], _ => rfl
  | [_], _ => rfl
  | x :: y :: t, i => by
    rw [List.foldl_cons, foldl_keepLast (y :: t) (some x),
      List.getLast?_cons_cons]
    cases hl : (y :: t).getLast? with
    | none => exact absurd (List.getLast?_eq_none_iff.mp hl) (by simp)
    | some z => rfl

theorem marketMaps_get (e : Event) (bk : Bookmaker) (m : Market)
    (k : OutKey) :
    (marketMaps e bk m).get k = (marketClassified e bk m k).getLast? := by
  rw [marketMaps, foldl_stepBookOutcome_get e bk m m.outcomes _ k,
    oddsLinkMaps_get_empty, foldl_keepLast, Option.or_none]
  rfl

/-! ## C4: records require all three classifications -/

/-- C4: in both modes an extracted record exists exactly when all three
classifications {home, draw, away} were matched with numerically valid
prices: aggregate extraction of an event yields a record iff its
classified-price list is nonempty for every classification, and a
bookmaker market yields a record iff it is an `h2h` market whose valid
classified price list is nonempty for every classification. -/
theorem c4_record_iff_complete (e : Event) (bk : Bookmaker) (m : Market) :
    ((extract_three_way_odds e).isSome ↔
      ∀ k : OutKey, classifiedPrices e k ≠ []) ∧
    ((processMarket e bk m).isSome ↔
      (m.key = "h2h" ∧ ∀ k : OutKey, marketClassified e bk m k ≠ [])) := by
  have hagg : ∀ k : OutKey,
      ((bestOddsState e).get k = none ↔ classifiedPrices e k = []) := by
    intro k
    rw [bestOddsState_get, foldl_omax_eq_none]
    simp
  have hpm : ∀ k : OutKey, ((marketMaps e bk m).get k = none ↔
      marketClassified e bk m k = []) := by
    intro k
    rw [marketMaps_get, List.getLast?_eq_none_iff]
  constructor
  · have hopt : (extract_three_way_odds e).isSome ↔
        ((bestOddsState e).home ≠ none ∧ (bestOddsState e).draw ≠ none ∧
          (bestOddsState e).away ≠ none) := by
      unfold extract_three_way_odds
      cases (bestOddsState e).home <;> cases (bestOddsState e).draw <;>
        cases (bestOddsState e).away <;> simp
    rw [hopt]
    constructor
    · rintro ⟨h1, h2, h3⟩ k
      cases k
      · exact fun he => h1 ((hagg OutKey.home).mpr he)
      · exact fun he => h2 ((hagg OutKey.draw).mpr he)
      · exact fun he => h3 ((hagg OutKey.away).mpr he)
    · intro h
      exact ⟨fun hn => h OutKey.home ((hagg OutKey.home).mp hn),
        fun hn => h OutKey.draw ((hagg OutKey.draw).mp hn),
        fun hn => h OutKey.away ((hagg OutKey.away).mp hn)⟩
  · by_cases hkey : m.key = "h2h"
    · have hopt2 : (processMarket e bk m).isSome ↔
          ((marketMaps e bk m).home ≠ none ∧
            (marketMaps e bk m).draw ≠ none ∧
            (marketMaps e bk m).away ≠ none) := by
        unfold processMarket
        rw [if_pos hkey]
        cases (marketMaps e bk m).home <;> cases (marketMaps e bk m).draw <;>
          cases (marketMaps e bk m).away <;> simp
      rw [hopt2]
      simp only [hkey, true_and]
      constructor
      · rintro ⟨h1, h2, h3⟩ k
        cases k
        · exact fun he => h1 ((hpm OutKey.home).mpr he)
        · exact fun he => h2 ((hpm OutKey.draw).mpr he)
        · exact fun he => h3 ((hpm OutKey.away).mpr he)
      · intro h
        exact ⟨fun hn => h OutKey.home ((hpm OutKey.home).mp hn),
          fun hn => h OutKey.draw ((hpm OutKey.draw).mp hn),
          fun hn => h OutKey.away ((hpm OutKey.away).mp hn)⟩
    · have hnone : processMarket e bk m = none := by
        unfold processMarket
        rw [if_neg hkey]
      rw [hnone]
      simp [hkey]

/-! ## C10: later outcomes overwrite earlier ones in per-bookmaker mode -/

/-- C10: in per-bookmaker mode the record of a market carries, for each
classification, the price and deep link of the last outcome of the market
classifying to that key with a convertible price — later entries
overwrite earlier ones, unlike the maximum taken in aggregate mode. -/
theorem c10_overwrite_last (e : Event) (bk : Bookmaker) (m : Market)
    (r : BookRecord) (h : processMarket e bk m = some r) :
    (marketClassified e bk m OutKey.home).getLast? =
      some (r.home_odds, r.home_link) ∧
    (marketClassified e bk m OutKey.draw).getLast? =
      some (r.draw_odds, r.draw_link) ∧
    (marketClassified e bk m OutKey.away).getLast? =
      some (r.away_odds, r.away_link) := by
  by_cases hkey : m.key = "h2h"
  · unfold processMarket at h
    rw [if_pos hkey] at h
    cases hh : (marketMaps e bk m).home <;> rw [hh] at h <;>
      cases hd : (marketMaps e bk m).draw <;> rw [hd] at h <;>
        cases ha : (marketMaps e bk m).away <;> rw [ha] at h <;>
          try exact Option.noConfusion h
    obtain rfl := (Option.some.inj h).symm
    refine ⟨?_, ?_, ?_⟩
    · rw [← marketMaps_get e bk m OutKey.home]
      rw [show (marketMaps e bk m).get OutKey.home =
        (marketMaps e bk m).home from rfl, hh]
      exact congrArg some Prod.mk.eta.symm
    · rw [← marketMaps_get e bk m OutKey.draw]
      rw [show (marketMaps e bk m).get OutKey.draw =
        (marketMaps e bk m).draw from rfl, hd]
      exact congrArg some Prod.mk.eta.symm
    · rw [← marketMaps_get e bk m OutKey.away]
      rw [show (marketMaps e bk m).get OutKey.away =
        (marketMaps e bk m).away from rfl, ha]
      exact congrArg some Prod.mk.eta.symm
  · unfold processMarket at h
    rw [if_neg hkey] at h
    exact Option.noConfusion h

/-- C10 witness: on the market listing home outcomes with prices 5 then
2, the extracted record carries home odds 2 and the last outcome's (empty)
link. -/
theorem c10_overwrite_last_witness :
    (marketClassified exEventDup exBookmakerDup exMarketDup
      OutKey.home).getLast? = some (2, none) :=
  (c10_overwrite_last exEventDup exBookmakerDup exMarketDup exRecordDup
    rfl).1

/-! ## C9: record multiplicity -/

theorem length_filterMap_processMarket (e : Event) (bk : Bookmaker) :
    ∀ (ms : List Market),
      (ms.filterMap (processMarket e bk)).length ≤
        (ms.filter fun m => m.key == "h2h").length
  | [] => Nat.le_refl 0
  | mkt :: ms => by
    by_cases h : mkt.key = "h2h"
    · have hb : (mkt.key == "h2h") = true := beq_iff_eq.mpr h
      cases hp : processMarket e bk mkt with
      | none =>
        simp only [List.filterMap_cons, List.filter_cons, hp, hb, if_true,
          List.length_cons]
        exact Nat.le_succ_of_le (length_filterMap_processMarket e bk ms)
      | some r =>
        simp only [List.filterMap_cons, List.filter_cons, hp, hb, if_true,
          List.length_cons]
        exact Nat.succ_le_succ (length_filterMap_processMarket e bk ms)
    · have hp : processMarket e bk mkt = none := by
        unfold processMarket
        rw [if_neg h]
      have hb : (mkt.key == "h2h") = false := by
        simp [h]
      simp only [List.filterMap_cons, List.filter_cons, hp, hb,
        Bool.false_eq_true, if_false]
      exact length_filterMap_processMarket e bk ms

/-- C9 (counterexample): an event whose single bookmaker "bk" lists two
complete `h2h` markets produces two extracted records for the same
(event, bookmaker) pair, so per-bookmaker extraction does not produce at
most one record per (event, bookmaker). -/
theorem c9_counterexample :
    (extract_bookmaker_odds exEventTwice).length = 2 ∧
    (extract_bookmaker_odds exEventTwice).map (fun r => r.bookmaker) =
      ["bk", "bk"] := ⟨rfl, rfl⟩

/-- C9 (amended): extraction produces at most one record per event in
aggregate mode, and at most one record per `h2h` market entry in
per-bookmaker mode — a bookmaker listing the `h2h` market twice can
produce two records for the same (event, bookmaker) pair. -/
theorem c9_at_most_one_per_market (e : Event) :
    (extract_three_way_odds e).toList.length ≤ 1 ∧
    (extract_bookmaker_odds e).length ≤ countH2hMarkets e := by
  constructor
  · cases extract_three_way_odds e <;> simp
  · rw [extract_bookmaker_odds, countH2hMarkets]
    generalize e.bookmakers = bks
    induction bks with
    | nil => simp
    | cons bk bks ih =>
      rw [List.flatMap_cons, List.flatMap_cons, List.length_append,
        List.length_append]
      exact Nat.add_le_add (length_filterMap_processMarket e bk bk.markets)
        ih

/-! ## C7: invalid prices are discarded at single-outcome scope -/

/-- C7: an outcome whose price fails numeric conversion is a no-op of the
extraction state in both modes — extraction of a market containing it
equals extraction of the market without it, so the other outcomes'
classifications and prices are unaffected (and, the model being total, no
exception escapes). -/
theorem c7_invalid_price_discarded (e : Event) (bk : Bookmaker)
    (mk : String) (l1 l2 : List Outcome) (mlink : Option String)
    (home_team away_team : String) (b : BestOdds) (s : OddsLinkMaps)
    (bad : Outcome) (hbad : bad.price = none) :
    (l1 ++ bad :: l2).foldl (stepOutcome home_team away_team) b =
      (l1 ++ l2).foldl (stepOutcome home_team away_team) b ∧
    (l1 ++ bad :: l2).foldl
        (stepBookOutcome e bk ⟨mk, l1 ++ bad :: l2, mlink⟩) s =
      (l1 ++ l2).foldl (stepBookOutcome e bk ⟨mk, l1 ++ l2, mlink⟩) s ∧
    processMarket e bk ⟨mk, l1 ++ bad :: l2, mlink⟩ =
      processMarket e bk ⟨mk, l1 ++ l2, mlink⟩ := by
  have hstep : ∀ b' : BestOdds, stepOutcome home_team away_team b' bad = b' := by
    intro b'
    rw [stepOutcome]
    cases classifyOutcome drawSynonymsAggregate home_team away_team bad.name with
    | none => rfl
    | some k => rw [hbad]
  have hstepBook : ∀ (os : List Outcome) (s' : OddsLinkMaps),
      stepBookOutcome e bk ⟨mk, os, mlink⟩ s' bad = s' := by
    intro os s'
    rw [stepBookOutcome]
    cases classifyOutcome drawSynonymsPerBookmaker e.home_team e.away_team
        bad.name with
    | none => rfl
    | some k => rw [hbad]
  have hfun : ∀ (os1 os2 : List Outcome),
      stepBookOutcome e bk ⟨mk, os1, mlink⟩ =
        stepBookOutcome e bk ⟨mk, os2, mlink⟩ := fun _ _ => rfl
  have h1 : (l1 ++ bad :: l2).foldl (stepOutcome home_team away_team) b =
      (l1 ++ l2).foldl (stepOutcome home_team away_team) b := by
    rw [List.foldl_append, List.foldl_append, List.foldl_cons, hstep]
  have h2 : ∀ s' : OddsLinkMaps, (l1 ++ bad :: l2).foldl
      (stepBookOutcome e bk ⟨mk, l1 ++ bad :: l2, mlink⟩) s' =
      (l1 ++ l2).foldl (stepBookOutcome e bk ⟨mk, l1 ++ l2, mlink⟩) s' := by
    intro s'
    rw [hfun (l1 ++ bad :: l2) (l1 ++ l2), List.foldl_append,
      List.foldl_append, List.foldl_cons, hstepBook]
  refine ⟨h1, h2 s, ?_⟩
  rw [processMarket, processMarket]
  have hmaps : marketMaps e bk ⟨mk, l1 ++ bad :: l2, mlink⟩ =
      marketMaps e bk ⟨mk, l1 ++ l2, mlink⟩ := by
    rw [marketMaps, marketMaps]
    exact h2 ⟨none, none, none⟩
  rw [hmaps]

/-- C7 witness: inserting a draw-labelled outcome with an unconvertible
price between a home and a draw outcome leaves both extraction states
unchanged. -/
theorem c7_invalid_price_discarded_witness :
    ([exOutcomeHome] ++ exOutcomeBadPrice :: [exOutcomeDraw]).foldl
        (stepOutcome "HomeFC" "AwayFC") ⟨none, none, none⟩ =
      ([exOutcomeHome] ++ [exOutcomeDraw]).foldl
        (stepOutcome "HomeFC" "AwayFC") ⟨none, none, none⟩ :=
  (c7_invalid_price_discarded exEventSimple exBookmaker "h2h"
    [exOutcomeHome] [exOutcomeDraw] none "HomeFC" "AwayFC"
    ⟨none, none, none⟩ ⟨none, none, none⟩ exOutcomeBadPrice rfl).1

end OddsScripts
